import Mathlib

/-!
Verification of the EMA (exponential moving average) library.

The Rust source computes over `f64`; we model its real-number semantics with
exact rationals (`ℚ`).  The smoothing constant `ALPHA = 2 / (1 + 5) = 1/3`
and the fed observations are small integers, so every quantity the claims
mention is an exact rational; the decimal constants quoted by the spec are
the 17-significant-digit renderings of those rationals, and we bound the
distance between each rational and its quoted decimal.
-/

/-- Window size constant of the source (the source uses 5). -/
def N_OBSERVATIONS : Nat := 5

/-- Smoothing factor constant of the source. -/
def SMOOTHING : ℚ := 2

/-- Derived constant `ALPHA = SMOOTHING / (1 + N_OBSERVATIONS)`, as in the source. -/
def ALPHA : ℚ := SMOOTHING / ((1 + N_OBSERVATIONS : ℕ) : ℚ)

/-- One exponential-smoothing step, `prev_ema + ALPHA * (price - prev_ema)`. -/
def compute_ema (prev_ema : ℚ) (price : ℚ) : ℚ :=
  prev_ema + ALPHA * (price - prev_ema)

/-- State of the fast (incremental) engine: `result`, `last`, `count`. -/
structure EmaFast where
  result : Option ℚ
  last : ℚ
  count : Nat
  deriving DecidableEq

/-- Derived `Default` state of `EmaFast`: all fields zero / `None`. -/
def EmaFast.default : EmaFast := { result := none, last := 0, count := 0 }

/-- Accessor `EmaFast::get_result`. -/
def EmaFast.get_result (e : EmaFast) : Option ℚ := e.result

/-- Update of the fast engine: seed with the raw value on the first observation,
otherwise apply `compute_ema`; the result becomes available once
`count ≥ N_OBSERVATIONS`. -/
def EmaFast.update (e : EmaFast) (new_price : ℚ) : EmaFast :=
  let last := if e.count = 0 then new_price else compute_ema e.last new_price
  let count := e.count + 1
  { last := last
    count := count
    result := if count < N_OBSERVATIONS then none else some last }

/-- State of the windowed engine: `result` and the `window`
(oldest first, newest last). -/
structure EmaCorrect where
  result : Option ℚ
  window : List ℚ
  deriving DecidableEq

/-- Derived `Default` state of `EmaCorrect`: empty window, no result. -/
def EmaCorrect.default : EmaCorrect := { result := none, window := [] }

/-- Accessor `EmaCorrect::get_result`. -/
def EmaCorrect.get_result (e : EmaCorrect) : Option ℚ := e.result

/-- The recomputation loop of `EmaCorrect::update`:
`result = window[0]; for i in 1..N_OBSERVATIONS { result = compute_ema(result, window[i]) }`.
Out-of-range indices (never hit when the window is full) default to `0`. -/
def recompute (w : List ℚ) : ℚ :=
  (List.range (N_OBSERVATIONS - 1)).foldl
    (fun r i => compute_ema r (w.getD (i + 1) 0)) (w.getD 0 0)

/-- Update of the windowed engine: if the window is full, drop the oldest element;
append the new observation; if still warming up the result is `none`,
otherwise it is the full recomputation over the window. -/
def EmaCorrect.update (e : EmaCorrect) (new_price : ℚ) : EmaCorrect :=
  let popped := if e.window.length = N_OBSERVATIONS then e.window.tail else e.window
  let w := popped ++ [new_price]
  { window := w
    result := if w.length < N_OBSERVATIONS then none else some (recompute w) }

/-- Feed a list of observations to an `EmaFast`, in order. -/
def runFast (e : EmaFast) (xs : List ℚ) : EmaFast :=
  xs.foldl EmaFast.update e

/-- Feed a list of observations to an `EmaCorrect`, in order. -/
def runCorrect (e : EmaCorrect) (xs : List ℚ) : EmaCorrect :=
  xs.foldl EmaCorrect.update e

/-- Reading `get_result` as an observation step: it returns the current result and
leaves the state untouched (Rust signature `fn get_result(&self)`). -/
def EmaFast.read (e : EmaFast) : Option ℚ × EmaFast := (e.get_result, e)

/-- Reading `get_result` as an observation step for the windowed engine. -/
def EmaCorrect.read (e : EmaCorrect) : Option ℚ × EmaCorrect := (e.get_result, e)

/-! ### Helper lemmas -/

/-- Unfolding a single step of `runCorrect`. -/
lemma runCorrect_cons (e : EmaCorrect) (x : ℚ) (xs : List ℚ) :
    runCorrect e (x :: xs) = runCorrect (e.update x) xs := rfl

/-- Feeding a concatenation is feeding the parts in turn. -/
lemma runCorrect_append (e : EmaCorrect) (xs ys : List ℚ) :
    runCorrect e (xs ++ ys) = runCorrect (runCorrect e xs) ys := by
  simp [runCorrect, List.foldl_append]

/-- Unfolding a single step of `runFast`. -/
lemma runFast_cons (e : EmaFast) (x : ℚ) (xs : List ℚ) :
    runFast e (x :: xs) = runFast (e.update x) xs := rfl

/-- Feeding a concatenation is feeding the parts in turn (fast engine). -/
lemma runFast_append (e : EmaFast) (xs ys : List ℚ) :
    runFast e (xs ++ ys) = runFast (runFast e xs) ys := by
  simp [runFast, List.foldl_append]

/-- Length of the window after one update: stays at `N_OBSERVATIONS` when full,
grows by one otherwise. -/
lemma EmaCorrect.update_window_length (e : EmaCorrect) (x : ℚ) :
    (e.update x).window.length =
      if e.window.length = N_OBSERVATIONS then N_OBSERVATIONS
      else e.window.length + 1 := by
  by_cases h : e.window.length = N_OBSERVATIONS
  · simp only [EmaCorrect.update, h, if_true, List.length_append,
      List.length_tail, List.length_cons, List.length_nil]
    simp only [N_OBSERVATIONS] at h ⊢
    try omega
  · simp [EmaCorrect.update, h]

/-- One update keeps the window length bounded by the window size. -/
lemma EmaCorrect.update_window_length_le (e : EmaCorrect) (x : ℚ)
    (h : e.window.length ≤ N_OBSERVATIONS) :
    (e.update x).window.length ≤ N_OBSERVATIONS := by
  rw [EmaCorrect.update_window_length]
  split
  · exact le_refl _
  · omega

/-- Any run keeps the window length bounded by the window size. -/
lemma runCorrect_window_length_le (xs : List ℚ) (e : EmaCorrect)
    (h : e.window.length ≤ N_OBSERVATIONS) :
    (runCorrect e xs).window.length ≤ N_OBSERVATIONS := by
  induction xs generalizing e with
  | nil => exact h
  | cons x xs ih =>
      rw [runCorrect_cons]
      exact ih _ (EmaCorrect.update_window_length_le e x h)

/-- Once the window is full it stays exactly full under any further run. -/
lemma runCorrect_window_length_full (xs : List ℚ) (e : EmaCorrect)
    (h : e.window.length = N_OBSERVATIONS) :
    (runCorrect e xs).window.length = N_OBSERVATIONS := by
  induction xs generalizing e with
  | nil => exact h
  | cons x xs ih =>
      rw [runCorrect_cons]
      refine ih _ ?_
      rw [EmaCorrect.update_window_length, if_pos h]

/-- The stored result of the windowed engine is always determined by the window:
`none` while the window is short, otherwise the recomputation over the window. -/
def EmaCorrect.ResultInv (e : EmaCorrect) : Prop :=
  e.result = if e.window.length < N_OBSERVATIONS then none
             else some (recompute e.window)

/-- The result invariant holds after every single update, by construction. -/
lemma EmaCorrect.resultInv_update (e : EmaCorrect) (x : ℚ) :
    (e.update x).ResultInv := rfl

/-- The result invariant is preserved by any run. -/
lemma runCorrect_resultInv (xs : List ℚ) (e : EmaCorrect)
    (h : e.ResultInv) : (runCorrect e xs).ResultInv := by
  induction xs generalizing e with
  | nil => exact h
  | cons x xs ih =>
      rw [runCorrect_cons]
      exact ih _ (EmaCorrect.resultInv_update e x)

/-- The default windowed engine satisfies the result invariant. -/
lemma EmaCorrect.resultInv_default : EmaCorrect.default.ResultInv := by
  simp [EmaCorrect.ResultInv, EmaCorrect.default, N_OBSERVATIONS]

/-- The observation count of the fast engine counts the fed observations. -/
lemma runFast_count (xs : List ℚ) (e : EmaFast) :
    (runFast e xs).count = e.count + xs.length := by
  induction xs generalizing e with
  | nil => simp [runFast]
  | cons x xs ih =>
      rw [runFast_cons, ih]
      simp [EmaFast.update]
      omega

/-- Availability invariant of the fast engine: a result is present exactly when
the count has reached the window size. -/
def EmaFast.AvailInv (e : EmaFast) : Prop :=
  e.result.isSome ↔ N_OBSERVATIONS ≤ e.count

/-- The availability invariant holds after every single update. -/
lemma EmaFast.availInv_update (e : EmaFast) (x : ℚ) :
    (e.update x).AvailInv := by
  simp only [EmaFast.AvailInv, EmaFast.update]
  split
  · simp
    omega
  · simp
    omega

/-- The availability invariant is preserved by any run. -/
lemma runFast_availInv (xs : List ℚ) (e : EmaFast)
    (h : e.AvailInv) : (runFast e xs).AvailInv := by
  induction xs generalizing e with
  | nil => exact h
  | cons x xs ih =>
      rw [runFast_cons]
      exact ih _ (EmaFast.availInv_update e x)

/-- The default fast engine satisfies the availability invariant. -/
lemma EmaFast.availInv_default : EmaFast.default.AvailInv := by
  simp [EmaFast.AvailInv, EmaFast.default, N_OBSERVATIONS]

/-! ### Claim theorems -/

/-- C1: for window size 5, feeding 1..5 to fresh `EmaFast` and `EmaCorrect`
engines gives identical `get_result` values, equal to the fold that seeds with
1 and then applies `compute_ema` with 2, 3, 4, 5 using `ALPHA = 2 / (1 + 5)`;
the exact value is `275/81`, whose decimal rendering is
`3.3950617283950617` (within `10 ^ (-15)`). -/
theorem ema_first_value_agreement :
    (runFast EmaFast.default [1, 2, 3, 4, 5]).get_result
        = (runCorrect EmaCorrect.default [1, 2, 3, 4, 5]).get_result
    ∧ (runFast EmaFast.default [1, 2, 3, 4, 5]).get_result
        = some ([2, 3, 4, 5].foldl compute_ema 1)
    ∧ ALPHA = 2 / (1 + (5 : ℚ))
    ∧ ([2, 3, 4, 5].foldl compute_ema (1 : ℚ)) = 275 / 81
    ∧ |(275 / 81 : ℚ) - 33950617283950617 / 10 ^ 16| < 1 / 10 ^ 15 := by
  refine ⟨?_, ?_, ?_, ?_, ?_⟩
  · norm_num [runFast, runCorrect, EmaFast.update, EmaCorrect.update,
      EmaFast.default, EmaCorrect.default, EmaFast.get_result, EmaCorrect.get_result,
      recompute, compute_ema, ALPHA, SMOOTHING, N_OBSERVATIONS, List.foldl, List.range_succ]
  · norm_num [runFast, EmaFast.update, EmaFast.default, EmaFast.get_result,
      compute_ema, ALPHA, SMOOTHING, N_OBSERVATIONS, List.foldl]
  · norm_num [ALPHA, SMOOTHING, N_OBSERVATIONS]
  · norm_num [compute_ema, ALPHA, SMOOTHING, N_OBSERVATIONS, List.foldl]
  · rw [abs_sub_lt_iff]
    norm_num

/-- C2: after feeding 1..5, one more observation 5 drives the engines apart:
`EmaFast` reports `955/243` (decimal `3.9300411522633745`) while `EmaCorrect`
reports `329/81` (decimal `4.061728395061729`), and these differ. -/
theorem ema_divergence :
    (runFast EmaFast.default [1, 2, 3, 4, 5, 5]).get_result = some (955 / 243)
    ∧ (runCorrect EmaCorrect.default [1, 2, 3, 4, 5, 5]).get_result = some (329 / 81)
    ∧ (955 / 243 : ℚ) ≠ 329 / 81
    ∧ |(955 / 243 : ℚ) - 39300411522633745 / 10 ^ 16| < 1 / 10 ^ 15
    ∧ |(329 / 81 : ℚ) - 4061728395061729 / 10 ^ 15| < 1 / 10 ^ 15 := by
  refine ⟨?_, ?_, ?_, ?_, ?_⟩
  · norm_num [runFast, EmaFast.update, EmaFast.default, EmaFast.get_result,
      compute_ema, ALPHA, SMOOTHING, N_OBSERVATIONS, List.foldl]
  · norm_num [runCorrect, EmaCorrect.update, EmaCorrect.default, EmaCorrect.get_result,
      recompute, compute_ema, ALPHA, SMOOTHING, N_OBSERVATIONS, List.foldl, List.range_succ]
  · norm_num
  · rw [abs_sub_lt_iff]
    norm_num
  · rw [abs_sub_lt_iff]
    norm_num

/-- C3: once the window of the windowed engine is full, `get_result` is the
recomputation seeded with the oldest window element and folded with
`compute_ema` over the rest; consequently it is a function of the current
window contents only — any other run reaching the same window reads the
same result, evicted observations have no influence. -/
theorem ema_window_determines_result (xs ys : List ℚ)
    (h : (runCorrect EmaCorrect.default xs).window.length = N_OBSERVATIONS)
    (hw : (runCorrect EmaCorrect.default ys).window
            = (runCorrect EmaCorrect.default xs).window) :
    (runCorrect EmaCorrect.default xs).get_result
        = some (recompute (runCorrect EmaCorrect.default xs).window)
    ∧ (runCorrect EmaCorrect.default ys).get_result
        = (runCorrect EmaCorrect.default xs).get_result := by
  have hx := runCorrect_resultInv xs EmaCorrect.default EmaCorrect.resultInv_default
  have hy := runCorrect_resultInv ys EmaCorrect.default EmaCorrect.resultInv_default
  simp only [EmaCorrect.ResultInv] at hx hy
  constructor
  · simp [EmaCorrect.get_result, hx, h]
  · simp [EmaCorrect.get_result, hx, hy, hw, h]

/-- Closed witness for C3: the runs `1,2,3,4,5` and `9,1,2,3,4,5` end with the
same window `[1,2,3,4,5]` (the `9` has been evicted) and hence the same
result, equal to the recomputation over that window. -/
theorem ema_window_determines_result_witness :
    (runCorrect EmaCorrect.default [1, 2, 3, 4, 5]).get_result
        = some (recompute (runCorrect EmaCorrect.default [1, 2, 3, 4, 5]).window)
    ∧ (runCorrect EmaCorrect.default [9, 1, 2, 3, 4, 5]).get_result
        = (runCorrect EmaCorrect.default [1, 2, 3, 4, 5]).get_result :=
  ema_window_determines_result [1, 2, 3, 4, 5] [9, 1, 2, 3, 4, 5]
    (by simp [runCorrect, EmaCorrect.update, EmaCorrect.default, List.foldl,
          N_OBSERVATIONS])
    (by simp [runCorrect, EmaCorrect.update, EmaCorrect.default, List.foldl,
          N_OBSERVATIONS])

/-- C4: feeding `1, …, k` for any `k < N_OBSERVATIONS` leaves both engines
with no result — every one of the first `W - 1` updates reports `none`. -/
theorem ema_warmup (k : Nat) (h : k < N_OBSERVATIONS) :
    (runFast EmaFast.default
        ((List.range k).map (fun i => ((i + 1 : Nat) : ℚ)))).get_result = none
    ∧ (runCorrect EmaCorrect.default
        ((List.range k).map (fun i => ((i + 1 : Nat) : ℚ)))).get_result = none := by
  have h5 : k < 5 := by simpa [N_OBSERVATIONS] using h
  interval_cases k <;>
  · constructor <;>
      norm_num [runFast, runCorrect, EmaFast.update, EmaCorrect.update,
        EmaFast.default, EmaCorrect.default, EmaFast.get_result,
        EmaCorrect.get_result, List.range_succ, N_OBSERVATIONS, compute_ema,
        List.foldl]

/-- Closed witness for C4 at `k = 4`: after the first four observations both
engines still report `none`. -/
theorem ema_warmup_witness :
    (runFast EmaFast.default
        ((List.range 4).map (fun i => ((i + 1 : Nat) : ℚ)))).get_result = none
    ∧ (runCorrect EmaCorrect.default
        ((List.range 4).map (fun i => ((i + 1 : Nat) : ℚ)))).get_result = none :=
  ema_warmup 4 (by norm_num [N_OBSERVATIONS])

/-- C5: the window length of the windowed engine never exceeds
`N_OBSERVATIONS` under any run from the fresh state, and an update on a full
window removes exactly the oldest element (index 0) before appending the new
observation. -/
theorem ema_bounded_window (xs : List ℚ) (e : EmaCorrect) (x : ℚ)
    (h : e.window.length = N_OBSERVATIONS) :
    (runCorrect EmaCorrect.default xs).window.length ≤ N_OBSERVATIONS
    ∧ (e.update x).window = e.window.tail ++ [x] := by
  constructor
  · exact runCorrect_window_length_le xs _ (by simp [EmaCorrect.default])
  · simp [EmaCorrect.update, h]

/-- Closed witness for C5: a seven-observation run keeps the window within
bound, and an update on the full window `[1,2,3,4,5]` drops the `1` and
appends the new value. -/
theorem ema_bounded_window_witness :
    (runCorrect EmaCorrect.default [1, 2, 3, 4, 5, 6, 7]).window.length
        ≤ N_OBSERVATIONS
    ∧ (EmaCorrect.update { result := none, window := [1, 2, 3, 4, 5] } 9).window
        = [(1 : ℚ), 2, 3, 4, 5].tail ++ [9] :=
  ema_bounded_window [1, 2, 3, 4, 5, 6, 7]
    { result := none, window := [1, 2, 3, 4, 5] } 9 (by simp [N_OBSERVATIONS])

/-- C6: `compute_ema` is the pure function
`previous_ema + ALPHA * (observation - previous_ema)` with
`ALPHA = SMOOTHING / (1 + N_OBSERVATIONS)`, and this `ALPHA` lies in (0, 1). -/
theorem ema_step_formula (p o : ℚ) :
    compute_ema p o = p + ALPHA * (o - p)
    ∧ ALPHA = SMOOTHING / ((1 + N_OBSERVATIONS : ℕ) : ℚ)
    ∧ 0 < ALPHA ∧ ALPHA < 1 := by
  refine ⟨rfl, rfl, ?_, ?_⟩ <;> norm_num [ALPHA, SMOOTHING, N_OBSERVATIONS]

/-- C7: for either engine, once `get_result` is present after some run it
remains present after feeding any further observations — availability never
reverts to `none`. -/
theorem ema_availability_monotone (xs ys : List ℚ) :
    ((runFast EmaFast.default xs).get_result.isSome = true →
      (runFast EmaFast.default (xs ++ ys)).get_result.isSome = true)
    ∧ ((runCorrect EmaCorrect.default xs).get_result.isSome = true →
      (runCorrect EmaCorrect.default (xs ++ ys)).get_result.isSome = true) := by
  constructor
  · intro hf
    have h1 := runFast_availInv xs EmaFast.default EmaFast.availInv_default
    have h2 := runFast_availInv (xs ++ ys) EmaFast.default EmaFast.availInv_default
    have c1 := runFast_count xs EmaFast.default
    have c2 := runFast_count (xs ++ ys) EmaFast.default
    simp only [EmaFast.AvailInv, EmaFast.get_result, EmaFast.default,
      List.length_append] at h1 h2 c1 c2 hf ⊢
    rw [h2, c2]
    have hn := h1.mp hf
    rw [c1] at hn
    omega
  · intro hc
    have h1 := runCorrect_resultInv xs EmaCorrect.default EmaCorrect.resultInv_default
    have h2 := runCorrect_resultInv (xs ++ ys) EmaCorrect.default
      EmaCorrect.resultInv_default
    have hle := runCorrect_window_length_le xs EmaCorrect.default
      (by simp [EmaCorrect.default])
    simp only [EmaCorrect.ResultInv, EmaCorrect.get_result] at h1 h2 hc ⊢
    rw [h1] at hc
    by_cases hlt : (runCorrect EmaCorrect.default xs).window.length < N_OBSERVATIONS
    · rw [if_pos hlt] at hc
      simp at hc
    · have hfull : (runCorrect EmaCorrect.default xs).window.length
          = N_OBSERVATIONS := by omega
      have hfull2 : (runCorrect EmaCorrect.default (xs ++ ys)).window.length
          = N_OBSERVATIONS := by
        rw [runCorrect_append]
        exact runCorrect_window_length_full ys _ hfull
      rw [h2, if_neg (by omega)]
      simp

/-- Closed witness for C7: after `1,…,5` both engines have a result, and it
is still present after one more observation. -/
theorem ema_availability_monotone_witness :
    (runFast EmaFast.default ([1, 2, 3, 4, 5] ++ [9])).get_result.isSome = true
    ∧ (runCorrect EmaCorrect.default
        ([1, 2, 3, 4, 5] ++ [9])).get_result.isSome = true :=
  ⟨(ema_availability_monotone [1, 2, 3, 4, 5] [9]).1
      (by simp [runFast, EmaFast.update, EmaFast.default, EmaFast.get_result,
            List.foldl, N_OBSERVATIONS]),
   (ema_availability_monotone [1, 2, 3, 4, 5] [9]).2
      (by simp [runCorrect, EmaCorrect.update, EmaCorrect.default,
            EmaCorrect.get_result, List.foldl, N_OBSERVATIONS])⟩

/-- C8: reading `get_result` twice in a row without an intervening update
returns the same value both times and leaves either engine's state exactly as
it was — the read is pure. -/
theorem ema_read_idempotent (ef : EmaFast) (ec : EmaCorrect) :
    (ef.read.1 = ef.read.2.read.1 ∧ ef.read.2.read.2 = ef)
    ∧ (ec.read.1 = ec.read.2.read.1 ∧ ec.read.2.read.2 = ec) :=
  ⟨⟨rfl, rfl⟩, ⟨rfl, rfl⟩⟩

/-- C9: a freshly constructed engine of either implementation reports no
result before any observation has been fed. -/
theorem ema_fresh_no_result :
    EmaFast.default.get_result = none
    ∧ EmaCorrect.default.get_result = none :=
  ⟨rfl, rfl⟩

/-- C10: once the window of the windowed engine has reached length
`N_OBSERVATIONS`, it has exactly that length after every later update, and
`get_result` is then the recomputation over those `N_OBSERVATIONS`
elements. -/
theorem ema_window_exactly_full (xs ys : List ℚ)
    (h : (runCorrect EmaCorrect.default xs).window.length = N_OBSERVATIONS) :
    (runCorrect EmaCorrect.default (xs ++ ys)).window.length = N_OBSERVATIONS
    ∧ (runCorrect EmaCorrect.default (xs ++ ys)).get_result
        = some (recompute (runCorrect EmaCorrect.default (xs ++ ys)).window) := by
  have hfull : (runCorrect EmaCorrect.default (xs ++ ys)).window.length
      = N_OBSERVATIONS := by
    rw [runCorrect_append]
    exact runCorrect_window_length_full ys _ h
  refine ⟨hfull, ?_⟩
  have h2 := runCorrect_resultInv (xs ++ ys) EmaCorrect.default
    EmaCorrect.resultInv_default
  simp only [EmaCorrect.ResultInv, EmaCorrect.get_result] at h2 ⊢
  rw [h2, if_neg (by omega)]

/-- Closed witness for C10: after `1,…,5` the window is full, and after two
more observations it is still exactly full with the recomputed result. -/
theorem ema_window_exactly_full_witness :
    (runCorrect EmaCorrect.default ([1, 2, 3, 4, 5] ++ [6, 7])).window.length
        = N_OBSERVATIONS
    ∧ (runCorrect EmaCorrect.default ([1, 2, 3, 4, 5] ++ [6, 7])).get_result
        = some (recompute
            (runCorrect EmaCorrect.default ([1, 2, 3, 4, 5] ++ [6, 7])).window) :=
  ema_window_exactly_full [1, 2, 3, 4, 5] [6, 7]
    (by simp [runCorrect, EmaCorrect.update, EmaCorrect.default, List.foldl,
          N_OBSERVATIONS])
